import Mathlib

/-!
A verification development for the SWO trace-ingestion core of
`source/swotrace.c` (Black Magic Probe utilities).

The C code is shallowly embedded: byte buffers are `List Nat` (each element a
byte value), the intrusive singly-linked `TRACESTRING` list with a cached tail
pointer is a `List TRACESTRING` in append order (the tail is the last element),
`double` timestamps are `Rat` (only compared and subtracted, never rounded),
and machine integers are `Nat`/`Int`.  The GUI-only fields of `TRACESTRING`
(`timefmt`, `timefmt_len`) are display strings produced by `sprintf` and are
not modelled.  The CTF collaborator (`parsetsdl.c` / `decodectf.c`) is outside
this repository slice; `tracestring_add` is modelled in plain-text mode
(`stream_isactive` false for every channel) and the CTF decoder state touched
by `ctf_decode_reset` is modelled abstractly, as described at its definition.

All decoding functions are executable (structural recursion, fuel mirroring
the C loop bounds where the C loop is not structurally recursive).
-/

namespace SWO

/-! ### Constants (swotrace.c lines 81, 153-154, 177-178)

`NUM_CHANNELS` is defined in the repository's `swotrace.h`, which is not part
of this slice; the spec (§2, §3) fixes it at 32, matching the 5-bit channel
field of an ITM header.
-/

def NUM_CHANNELS : Nat := 32
def PACKET_SIZE : Nat := 64
def PACKET_NUM : Nat := 128
def TRACESTRING_MAXLENGTH : Nat := 256
def TRACESTRING_INITSIZE : Nat := 32

/-! ### ITM header macros (swotrace.c lines 190-192) -/

/-- `ITM_VALIDHDR(b)`: `((b) & 0x07) >= 1 && ((b) & 0x07) <= 3`. -/
def ITM_VALIDHDR (b : Nat) : Bool := 1 ≤ b % 8 && b % 8 ≤ 3

/-- `ITM_CHANNEL(b)`: `((b) >> 3) & 0x1f`. -/
def ITM_CHANNEL (b : Nat) : Nat := (b / 8) % 32

/-- `ITM_LENGTH(b)`: `((b) & 0x07) == 3 ? 4 : (b) & 0x07`. -/
def ITM_LENGTH (b : Nat) : Nat := if b % 8 == 3 then 4 else b % 8

/-! ### The trace-string store (swotrace.c lines 164-180) -/

/-- One `TRACESTRING` node.  `text` is the byte buffer (its length is the C
`length` field), `size` the C capacity field, `flags` the C `short flags`
(bit 0 = sealed).  `timefmt`/`timefmt_len` are not modelled (display only). -/
structure TRACESTRING where
  text : List Nat
  size : Nat
  channel : Nat
  timestamp : Rat
  flags : Nat
deriving DecidableEq

/-- Subtraction on `Rat` in a kernel-computable form: Batteries marks
`Rat.sub` as irreducible, which stops `decide` from evaluating the decoder on
concrete inputs.  `ratSub_eq_sub` below proves this is exactly `a - b`. -/
def ratSub (a b : Rat) : Rat := mkRat (a.num * b.den - b.num * a.den) (a.den * b.den)

/-- Apply `f` to the last element of a list: the C code mutates
`tracestring_tail`, which points at the last node of the list. -/
def updateLast (f : TRACESTRING → TRACESTRING) : List TRACESTRING → List TRACESTRING
  | [] => []
  | [t] => [f t]
  | t :: ts => t :: updateLast f ts

/-- `tracestring_tail->flags |= 0x01` -/
def sealTail (s : List TRACESTRING) : List TRACESTRING :=
  updateLast (fun t => { t with flags := t.flags ||| 1 }) s

/-- The tail's `flags` value after the seal checks of one loop iteration of
`tracestring_add` (swotrace.c lines 263-271): the channel-change, line-length
and time-interval criteria each set flag bit 0 (the CR/LF criterion is
handled before these by `continue`). -/
def sealCheckFlags (channel : Nat) (timestamp : Rat) (t0 : TRACESTRING) : Nat :=
  if decide (t0.channel ≠ channel)
     || decide (TRACESTRING_MAXLENGTH ≤ t0.text.length)
     || decide (ratSub timestamp t0.timestamp > mkRat 1 10)
  then t0.flags ||| 1 else t0.flags

/-- The tail's `size` after the on-demand buffer doubling of swotrace.c lines
276-285 (`malloc` assumed to succeed). -/
def grownSize (t0 : TRACESTRING) : Nat :=
  if t0.size ≤ t0.text.length then 2 * t0.size else t0.size

/-- One iteration of the plain-text `for (idx = 0; idx < length; idx++)` body
of `tracestring_add` (swotrace.c lines 257-321), processing byte `b`.
Heap allocation is assumed to succeed (on `malloc` failure the C code drops
the byte or the line; no claim concerns that path). -/
def tracestring_addByte (channel : Nat) (timestamp : Rat)
    (s : List TRACESTRING) (b : Nat) : List TRACESTRING :=
  match s.getLast? with
  | none =>
    -- tracestring_tail == NULL: only the "create a new string" branch applies
    if b == 13 || b == 10 then s  -- don't create an empty first string
    else s ++ [⟨[b], TRACESTRING_INITSIZE, channel, timestamp, 0⟩]
  | some t0 =>
    if b == 13 || b == 10 then sealTail s  -- on newline, create a new string
    else if sealCheckFlags channel timestamp t0 &&& 1 == 0 then
      -- append text to the current string
      updateLast (fun t =>
        if t.text.length < grownSize t0 then
          { t with text := t.text ++ [b], size := grownSize t0 }
        else { t with size := grownSize t0 }) s
    else
      -- create a new string (the old tail keeps its updated flags)
      updateLast (fun t => { t with flags := sealCheckFlags channel timestamp t0 }) s
        ++ [⟨[b], TRACESTRING_INITSIZE, channel, timestamp, 0⟩]

/-- `while (length > 0 && buffer[length-1] == '\0') length--;`
(swotrace.c lines 255-256): strip trailing NUL bytes. -/
def rstripNul (l : List Nat) : List Nat :=
  (l.reverse.dropWhile (· == 0)).reverse

/-- `tracestring_add` (swotrace.c lines 194-323) in plain-text mode, i.e. with
`stream_isactive(channel)` false (the CTF branch belongs to the out-of-scope
CTF collaborator).  `enabled` is the channel registry's `enabled` flag map. -/
def tracestring_add (enabled : Nat → Bool) (channel : Nat) (buffer : List Nat)
    (timestamp : Rat) (s : List TRACESTRING) : List TRACESTRING :=
  if !enabled channel then s
  else (rstripNul buffer).foldl (tracestring_addByte channel timestamp) s

/-- A trace store reachable from the empty store by a sequence of plain-text
`tracestring_add` calls (channel, buffer, timestamp). -/
def tracestring_store (enabled : Nat → Bool)
    (ops : List (Nat × List Nat × Rat)) : List TRACESTRING :=
  ops.foldl (fun s op => tracestring_add enabled op.1 op.2.1 op.2.2 s) []

/-! ### `tracestring_findtimestamp` (swotrace.c lines 502-509) -/

/-- The counting loop
`for (item = root.next; item != NULL && item->timestamp < timestamp; ...)`. -/
def tracestring_findtimestamp_loop (timestamp : Rat) : List TRACESTRING → Nat
  | [] => 0
  | t :: rest =>
    if t.timestamp < timestamp then tracestring_findtimestamp_loop timestamp rest + 1
    else 0

/-- `tracestring_findtimestamp`: `return line - 1;`. -/
def tracestring_findtimestamp (timestamp : Rat) (s : List TRACESTRING) : Int :=
  (tracestring_findtimestamp_loop timestamp s : Int) - 1

/-! ### `tracestring_find` (swotrace.c lines 449-496)

The C function searches a singly-linked list; we represent the current `item`
pointer by its index `idx` into the store (the list is not mutated during the
search; `item == NULL` corresponds to `idx = s.length`).  The main search
loop has no a-priori iteration bound in the C code — and indeed it does not
terminate for some inputs (see `tracestring_find_nonterminating` below) — so
it takes explicit fuel and returns `none` when the fuel runs out, i.e. when
the C loop is still running after `fuel` iterations.
-/

/-- `toupper` on a byte, ASCII semantics (the C locale). -/
def toupperByte (c : Nat) : Nat := if 97 ≤ c && c ≤ 122 then c - 32 else c

/-- `memicmp(p1, p2, count) == 0`: the first `count` bytes compare equal
case-insensitively (swotrace.c lines 1081-1087). -/
def memicmpZero (p1 p2 : List Nat) (count : Nat) : Bool :=
  ((p1.take count).map toupperByte) == ((p2.take count).map toupperByte)

/-- The per-line scan of `tracestring_find` (lines 475-484), expressed on the
suffix of the line's text starting at the current `idx`:
skip bytes whose upcased value differs from the search text's first byte; on a
candidate position, stop with failure if fewer than `len` bytes remain, else
test `memicmp`. -/
def find_in_line_loop (search : List Nat) (len : Nat) : List Nat → Bool
  | [] => false
  | c :: rest =>
    if toupperByte c != toupperByte (search.headD 0) then
      find_in_line_loop search len rest
    else if (c :: rest).length < len then false
    else if memicmpZero (c :: rest) search len then true
    else find_in_line_loop search len rest

/-- Whether the inner loop of `tracestring_find` finds the search text on the
given line (the C test `idx + len <= item->length` after the loop). -/
def find_in_line (text search : List Nat) : Bool :=
  find_in_line_loop search search.length text

/-- The main search loop of `tracestring_find`
(`while ((line != cur_mark || curline < 0) && item != NULL)`, lines 472-493),
with the `item = item->next; line++; if (item == NULL) {item = root; line = 0;}`
wrap-around step.  `none` = still running after `fuel` iterations. -/
def tracestring_find_loop (s : List TRACESTRING) (search : List Nat)
    (cur_mark curline : Int) : Nat → Nat → Option Int
  | _, 0 => none
  | idx, fuel + 1 =>
    if (idx : Int) ≠ cur_mark ∨ curline < 0 then
      if h : idx < s.length then
        if find_in_line (s.get ⟨idx, h⟩).text search then some (idx : Int)
        else
          tracestring_find_loop s search cur_mark cur_mark
            (if idx + 1 = s.length then 0 else idx + 1) fuel
      else some (-1)
    else some (-1)

/-- `tracestring_find(text, curline)` (swotrace.c lines 449-496).  The
positioning walk before the main loop leaves `item` at index
`min (curline+1) s.length`; if that is past the end, or `curline < 0`, the
search restarts at the head, otherwise at the following node. -/
def tracestring_find (s : List TRACESTRING) (search : List Nat)
    (curline : Int) (fuel : Nat) : Option Int :=
  let cur_mark : Int := curline + 1
  let walk : Nat := min cur_mark.toNat s.length
  if walk = s.length ∨ curline < 0 then
    tracestring_find_loop s search cur_mark curline 0 fuel
  else
    tracestring_find_loop s search cur_mark curline (walk + 1) fuel

/-! ### The ITM decoder (swotrace.c lines 182-192 and 352-447) -/

/-- The decoder-owned mutable state used by `tracestring_process`, together
with the trace store it appends to.  `ctf_state` stands for the out-of-scope
CTF collaborator's decoder state.  Modelled from the spec: `ctf_decode_reset`
(implemented in the repository's `decodectf.c`, outside this slice) "resets
CTF decoder state" (spec §4.4); we model that state as an abstract `Nat` that
the reset returns to 0. -/
structure TraceState where
  itm_cache : List Nat        -- itm_cache[0..itm_cachefilled-1]
  itm_datasize : Nat
  itm_datasz_auto : Bool
  itm_packet_errors : Nat
  ctf_state : Nat
  store : List TRACESTRING
deriving DecidableEq

/-- `ctf_decode_reset()` as observed by this slice (see `TraceState`). -/
def ctf_decode_reset (st : TraceState) : TraceState :=
  { st with ctf_state := 0 }

/-- The `goto skip_packet` error exit of `tracestring_process`
(lines 401-404 / 425-427 / 372-374): reset the CTF decoder state and count a
packet error; the rest of the current frame is not examined. -/
def skip_packet_error (st : TraceState) : TraceState :=
  { ctf_decode_reset st with itm_packet_errors := st.itm_packet_errors + 1 }

/-- The final emission after the per-frame loop
(`if (chan < NUM_CHANNELS && buflen > 0) tracestring_add(...)`, line 435). -/
def itm_emit (enabled : Nat → Bool) (ts : Rat) (chan : Nat) (buffer : List Nat)
    (st : TraceState) : TraceState :=
  if chan < NUM_CHANNELS ∧ buffer ≠ [] then
    { st with store := tracestring_add enabled chan buffer ts st.store }
  else st

/-- The `while (pktlen > 0)` loop of `tracestring_process`
(swotrace.c lines 395-438), followed by the final emission (line 435).
`pkt` is the unread rest of the frame, `chan`/`buffer` the working channel
and payload accumulator.  Each iteration consumes at least one byte of `pkt`,
so `fuel = pkt.length + 1` (as passed by `tracestring_process_frame`) always
suffices; `fuel = 0` cannot be reached from there. -/
def itm_loop (enabled : Nat → Bool) (ts : Rat) :
    Nat → Nat → List Nat → TraceState → List Nat → TraceState
  | 0, _, _, st, _ => st
  | fuel + 1, chan, buffer, st, pkt =>
    match pkt with
    | [] => itm_emit enabled ts chan buffer st
    | b :: rest =>
      if b == 23 then
        -- 0x17: profile packet (PC address), skip 5 bytes
        itm_loop enabled ts fuel chan buffer st (pkt.drop 5)
      else if !ITM_VALIDHDR b then
        skip_packet_error st   -- goto skip_packet: no final emission
      else
        -- channel change in the middle of a packet: emit and restart
        let step :=
          if chan ≠ ITM_CHANNEL b then
            (ITM_CHANNEL b, ([] : List Nat), itm_emit enabled ts chan buffer st)
          else (chan, buffer, st)
        let chan' := step.1
        let buffer' := step.2.1
        let st' := step.2.2
        let len := ITM_LENGTH b
        if pkt.length < len + 1 then
          -- store remaining data in the cache and quit the loop
          itm_emit enabled ts chan' buffer' { st' with itm_cache := pkt }
        else if st'.itm_datasize < len then
          if st'.itm_datasz_auto then
            itm_loop enabled ts fuel chan' (buffer' ++ rest.take len)
              { st' with itm_datasize := len } (pkt.drop (len + 1))
          else skip_packet_error st'   -- not a valid ITM packet, ignore it
        else
          itm_loop enabled ts fuel chan' (buffer' ++ rest.take len)
            st' (pkt.drop (len + 1))

/-- One iteration of the outer frame-draining loop of `tracestring_process`
(swotrace.c lines 355-441) in the `enabled` case: decode one transport frame
`frame` stamped `ts`.  When the carry cache is non-empty, the cached (partial)
ITM packet is completed first from the head of the frame (lines 364-393).
The C code `memcpy`s `skip` bytes and does `pktlen -= skip` without checking
`pktlen >= skip`; when the frame is shorter than `skip` that C code reads out
of bounds, so this model (which truncates via `take`/`drop`) is only claimed
faithful for frames of length ≥ 4, which always complete a cached packet. -/
def tracestring_process_frame (enabled : Nat → Bool) (st : TraceState)
    (frame : List Nat) (ts : Rat) : TraceState :=
  match st.itm_cache with
  | c0 :: ctail =>
    let chan := ITM_CHANNEL c0
    let len := ITM_LENGTH c0
    if st.itm_datasize < len ∧ ¬st.itm_datasz_auto then
      skip_packet_error st   -- note: the cache is not cleared on this path
    else
      let st := if st.itm_datasize < len then { st with itm_datasize := len } else st
      let skip := len - ctail.length   -- len - (itm_cachefilled - 1)
      let buffer := ctail ++ frame.take skip
      let pkt := frame.drop skip
      itm_loop enabled ts (pkt.length + 1) chan buffer { st with itm_cache := [] } pkt
  | [] =>
    match frame with
    | [] => st   -- the C code asserts pktlen > 0; empty frames are never queued
    | b :: _ =>
      itm_loop enabled ts (frame.length + 1) (ITM_CHANNEL b) [] st frame

/-- `tracestring_process(enabled)` (swotrace.c lines 352-447) on an explicit
FIFO list of pending transport frames (the ring is drained head-to-tail, so
draining is a left fold; the ring itself is modelled separately below).  When
`enabled` is false every frame is consumed without decoding.  The function's
`int` return value (number of frame-final emissions) plays no role in the
claims and is not modelled. -/
def tracestring_process (enabled : Bool) (chmap : Nat → Bool)
    (frames : List (List Nat × Rat)) (st : TraceState) : TraceState :=
  frames.foldl
    (fun st f => if enabled then tracestring_process_frame chmap st f.1 f.2 else st) st

/-! ### The packet ring (swotrace.c lines 153-162 and 1099-1123) -/

/-- One `PACKET` slot of the ring. -/
structure PACKET where
  data : List Nat
  length : Nat
  timestamp : Rat
deriving DecidableEq

/-- The ring's mutable state: `trace_queue`, `tracequeue_head`,
`tracequeue_tail`, `tracequeue_overflow`.  `slots` always has `PACKET_NUM`
entries. -/
structure Ring where
  slots : List PACKET
  head : Nat
  tail : Nat
  overflow : Nat
deriving DecidableEq

/-- The ring at program start: all slots zeroed (static storage). -/
def Ring.init : Ring :=
  ⟨List.replicate PACKET_NUM ⟨[], 0, 0⟩, 0, 0, 0⟩

/-- The enqueue step of the `trace_read` reader thread
(swotrace.c lines 1108-1118): if a successful bulk transfer read
`numread > 0` bytes into `buffer`, either publish the frame at `tail`
or count an overflow and drop it (drop-newest). -/
def trace_read_enqueue (r : Ring) (buffer : List Nat) (numread : Nat)
    (ts : Rat) : Ring :=
  if 0 < numread then
    let next := (r.tail + 1) % PACKET_NUM
    if next ≠ r.head then
      { r with
        slots := r.slots.set r.tail ⟨buffer.take numread, numread, ts⟩,
        tail := next }
    else { r with overflow := r.overflow + 1 }
  else r

/-- Number of frames visible to the consumer: the slots from `head`
(inclusive) to `tail` (exclusive), modulo the ring size. -/
def Ring.visibleCount (r : Ring) : Nat :=
  (r.tail + PACKET_NUM - r.head) % PACKET_NUM

/-- The visible frames in FIFO order. -/
def Ring.visible (r : Ring) : List PACKET :=
  (List.range r.visibleCount).map
    (fun i => r.slots.getD ((r.head + i) % PACKET_NUM) ⟨[], 0, 0⟩)

/-! ### The timeline configuration (swotrace.c lines 1483-1509, 1695-1720) -/

/-- `mark_spacing` / `mark_scale` / `mark_deltatime`
(swotrace.c lines 1483-1485).  `mark_spacing` is a C `float` used only with
exact operations (`*1.5`, `/1.5`, `*10`, `/10`) in the claims at hand, so it
is modelled as `Rat`; the two others are `unsigned long`. -/
structure TimelineCfg where
  mark_spacing : Rat
  mark_scale : Nat
  mark_deltatime : Nat
deriving DecidableEq

/-- `timeline_setconfig` (swotrace.c lines 1502-1509). -/
def timeline_setconfig (spacing : Rat) (scale : Nat) (delta : Nat)
    (c : TimelineCfg) : TimelineCfg :=
  if spacing > 10 ∧ scale > 0 ∧ delta > 0 ∧ delta ≤ 100 then ⟨spacing, scale, delta⟩
  else c

/-- The zoom-in (`NK_SYMBOL_PLUS`) handler of `timeline_widget`
(swotrace.c lines 1695-1706), acting on the stored configuration triple. -/
def timeline_widget_zoomin (c : TimelineCfg) : TimelineCfg :=
  let s := c.mark_spacing * (3/2)
  if s > 700 ∧ (c.mark_deltatime > 1 ∨ c.mark_scale > 1) then
    let d := c.mark_deltatime / 10
    let s := s / 10
    if d = 0 ∧ c.mark_scale ≥ 1000 then ⟨s, c.mark_scale / 1000, 100⟩
    else ⟨s, c.mark_scale, d⟩
  else ⟨s, c.mark_scale, c.mark_deltatime⟩

/-- The zoom-out (`NK_SYMBOL_MINUS`) handler of `timeline_widget`
(swotrace.c lines 1708-1720).  `MARK_SECOND = 1000000`. -/
def timeline_widget_zoomout (c : TimelineCfg) : TimelineCfg :=
  let s := if c.mark_spacing > 45 ∨ c.mark_scale < 60000000 ∨ c.mark_deltatime = 1
           then c.mark_spacing / (3/2) else c.mark_spacing
  if s < 70 then
    let d := c.mark_deltatime * 10
    let s' := s * 10
    if c.mark_scale < 1000000 ∧ d ≥ 1000 then ⟨s', c.mark_scale * 1000, d / 1000⟩
    else ⟨s', c.mark_scale, d⟩
  else ⟨s, c.mark_scale, c.mark_deltatime⟩

/-- `new` is within 1% of `old`. -/
def withinOnePercent (new old : Rat) : Prop :=
  |new - old| ≤ |old| / 100

/-! ### Reference material for the carry-correctness claim

A well-formed ITM stimulus stream, described packet-by-packet, and the tagged
byte sequence it carries.  These definitions are the specification side of
claim C1; the code side is `tracestring_process` above.
-/

/-- One ITM stimulus packet: a header byte and its payload. -/
structure ItmPacket where
  hdr : Nat
  payload : List Nat
deriving DecidableEq

/-- The wire bytes of one packet. -/
def pktBytes (p : ItmPacket) : List Nat := p.hdr :: p.payload

/-- The wire bytes of a packet stream. -/
def streamBytes (ps : List ItmPacket) : List Nat := (ps.map pktBytes).flatten

/-- Well-formed stimulus packet: valid header, payload length matching the
header's size field, and (for claim C1's amended form) no NUL payload bytes. -/
def WFpacket (p : ItmPacket) : Prop :=
  ITM_VALIDHDR p.hdr = true ∧ p.payload.length = ITM_LENGTH p.hdr ∧
    ∀ b ∈ p.payload, b ≠ 0

/-- Well-formed stimulus stream. -/
def WFstream (ps : List ItmPacket) : Prop := ∀ p ∈ ps, WFpacket p

instance (p : ItmPacket) : Decidable (WFpacket p) := by
  unfold WFpacket; infer_instance

instance (ps : List ItmPacket) : Decidable (WFstream ps) := by
  unfold WFstream; exact List.decidableBAll _ ps

/-- The (channel, byte) pairs carried by one packet. -/
def taggedPkt (p : ItmPacket) : List (Nat × Nat) :=
  p.payload.map (fun b => (ITM_CHANNEL p.hdr, b))

/-- The (channel, byte) pairs carried by a stream. -/
def taggedStream (ps : List ItmPacket) : List (Nat × Nat) :=
  (ps.map taggedPkt).flatten

/-- Feed one tagged byte to the store through the plain-text emit policy. -/
def addTag (enabled : Nat → Bool) (ts : Rat) (s : List TRACESTRING)
    (cb : Nat × Nat) : List TRACESTRING :=
  if enabled cb.1 then tracestring_addByte cb.1 ts s cb.2 else s

/-- A legal carry-cache value while `ps` is the not-yet-decoded rest of the
stream: empty, or a non-empty proper prefix of the first pending packet's
wire bytes. -/
def CacheOK (c : List Nat) (ps : List ItmPacket) : Prop :=
  c = [] ∨ ∃ p ps', ps = p :: ps' ∧ c ≠ [] ∧ c.length < (pktBytes p).length ∧
    c = (pktBytes p).take c.length

/-- No stored line's text contains a CR (13) or LF (10) byte. -/
def NoNewline (s : List TRACESTRING) : Prop :=
  ∀ t ∈ s, ∀ b ∈ t.text, b ≠ 13 ∧ b ≠ 10

/-! ## Theorems -/

/-- Members of `updateLast f s` are members of `s` or the image under `f` of a
member of `s`. -/
theorem mem_updateLast {f : TRACESTRING → TRACESTRING} {s : List TRACESTRING}
    {t' : TRACESTRING} (h : t' ∈ updateLast f s) :
    t' ∈ s ∨ ∃ t ∈ s, t' = f t := by
  induction s with
  | nil => exact absurd h (by simp [updateLast])
  | cons x tl ih =>
    cases tl with
    | nil =>
      simp only [updateLast, List.mem_singleton] at h
      exact Or.inr ⟨x, List.mem_singleton.2 rfl, h⟩
    | cons y tl' =>
      have hu : updateLast f (x :: y :: tl') = x :: updateLast f (y :: tl') := rfl
      rw [hu] at h
      rcases List.mem_cons.1 h with h | h
      · exact Or.inl (h ▸ List.mem_cons_self x _)
      · rcases ih h with h | ⟨t, ht, rfl⟩
        · exact Or.inl (List.mem_cons_of_mem x h)
        · exact Or.inr ⟨t, List.mem_cons_of_mem x ht, rfl⟩

/-- `dropWhile` is idempotent. -/
theorem dropWhile_self_idem (p : Nat → Bool) (l : List Nat) :
    (l.dropWhile p).dropWhile p = l.dropWhile p := by
  induction l with
  | nil => rfl
  | cons a t ih =>
    by_cases h : p a = true
    · simp [List.dropWhile_cons, h, ih]
    · simp [List.dropWhile_cons, h]

/-- `rstripNul` is idempotent (the model applies the C strip loop to an
already stripped buffer without changing it). -/
theorem rstripNul_idem (l : List Nat) : rstripNul (rstripNul l) = rstripNul l := by
  unfold rstripNul
  rw [List.reverse_reverse, dropWhile_self_idem]

/-- A buffer not ending in NUL is left unchanged by the strip loop. -/
theorem rstripNul_eq_self {l : List Nat} (h : l.getLast? ≠ some 0) :
    rstripNul l = l := by
  unfold rstripNul
  cases hr : l.reverse with
  | nil =>
    have : l = [] := List.reverse_eq_nil_iff.1 hr
    simp [this]
  | cons a t =>
    have ha : l.getLast? = some a := by
      rw [← List.head?_reverse, hr, List.head?_cons]
    have ha0 : (a == 0) = false := by
      rcases eq_or_ne a 0 with h0 | h0
      · exact absurd (h0 ▸ ha) h
      · exact beq_eq_false_iff_ne.2 h0
    rw [List.dropWhile_cons, ha0]
    simp [← hr]

/-- A buffer with no NUL byte at all is left unchanged by the strip loop. -/
theorem rstripNul_of_no_nul {l : List Nat} (h : ∀ b ∈ l, b ≠ 0) :
    rstripNul l = l := by
  cases hl : l.getLast? with
  | none => rw [List.getLast?_eq_none_iff.1 hl]; rfl
  | some a =>
    refine rstripNul_eq_self ?_
    rw [hl]
    have := h a (List.mem_of_getLast?_eq_some hl)
    simp [this]

/-- Stripping an all-NUL buffer empties it. -/
theorem rstripNul_replicate (k : Nat) : rstripNul (List.replicate k 0) = [] := by
  unfold rstripNul
  rw [List.reverse_replicate]
  have : (List.replicate k 0).dropWhile (· == 0) = [] := by
    induction k with
    | zero => rfl
    | succ n ih => rw [List.replicate_succ, List.dropWhile_cons]; simp [ih]
  rw [this]
  rfl

/-- Sanity of the computable subtraction used in `tracestring_addByte`:
`ratSub` is ordinary rational subtraction. -/
theorem ratSub_eq_sub (a b : Rat) : ratSub a b = a - b := by
  have ha : ((a.den : Rat)) ≠ 0 := by exact_mod_cast a.den_nz
  have hb : ((b.den : Rat)) ≠ 0 := by exact_mod_cast b.den_nz
  rw [ratSub, Rat.mkRat_eq_div]
  conv_rhs => rw [← Rat.num_div_den a, ← Rat.num_div_den b]
  rw [div_sub_div _ _ ha hb]
  push_cast
  ring_nf

/-! ### Claim C7: disabled channels -/

/-- Claim C7 — for every channel with `enabled == false` and every buffer and
timestamp, `tracestring_add` returns with the trace-line list completely
unchanged (so no `TRACESTRING` targeting a disabled channel is ever
materialized; in the heap-free model, producing no new list node is the
counterpart of performing no allocation). -/
theorem claim7_disabled_channel_noop (enabled : Nat → Bool) (channel : Nat)
    (buffer : List Nat) (ts : Rat) (s : List TRACESTRING)
    (h : enabled channel = false) :
    tracestring_add enabled channel buffer ts s = s := by
  simp [tracestring_add, h]

/-- Witness for claim C7 at a concrete disabled channel. -/
theorem claim7_witness :
    tracestring_add (fun _ => false) 0 [72, 105] 1 [] = [] :=
  claim7_disabled_channel_noop (fun _ => false) 0 [72, 105] 1 [] rfl

/-! ### Claim C10: timeline configuration validation -/

/-- Claim C10 — `timeline_setconfig(spacing, scale, delta)` installs the new
triple exactly when `spacing > 10`, `scale > 0` and `1 ≤ delta ≤ 100`, leaves
all three stored values unchanged otherwise, and does not check `scale`
against the permitted set {1, 1000, 1000000, 60000000}: the out-of-set value
`scale = 7` is accepted. -/
theorem claim10_setconfig_validation (spacing : Rat) (scale delta : Nat)
    (c : TimelineCfg) :
    ((spacing > 10 ∧ scale > 0 ∧ delta > 0 ∧ delta ≤ 100) →
      timeline_setconfig spacing scale delta c = ⟨spacing, scale, delta⟩)
    ∧ (¬(spacing > 10 ∧ scale > 0 ∧ delta > 0 ∧ delta ≤ 100) →
      timeline_setconfig spacing scale delta c = c)
    ∧ (7 ∉ [1, 1000, 1000000, 60000000] ∧
       timeline_setconfig 20 7 5 c = ⟨20, 7, 5⟩) := by
  refine ⟨fun h => ?_, fun h => ?_, by decide, ?_⟩
  · simp [timeline_setconfig, h]
  · simp [timeline_setconfig, h]
  · simp [timeline_setconfig]
    norm_num

/-- Witness for claim C10: both the accepting and the rejecting branch at
concrete inputs. -/
theorem claim10_witness :
    timeline_setconfig 20 7 5 ⟨100, 1, 1⟩ = ⟨20, 7, 5⟩
    ∧ timeline_setconfig 5 7 5 ⟨100, 1, 1⟩ = ⟨100, 1, 1⟩ :=
  ⟨(claim10_setconfig_validation 20 7 5 ⟨100, 1, 1⟩).1 (by norm_num),
   (claim10_setconfig_validation 5 7 5 ⟨100, 1, 1⟩).2.1 (by norm_num)⟩

/-! ### Claim C4: ring overflow is drop-newest -/

/-- Claim C4 — enqueueing a frame into a full ring (`(tail+1) mod 128 ==
head`) leaves the slots, head and tail unchanged and increments the overflow
counter by one; consequently enqueuing 200 frames against a non-draining
consumer leaves exactly 127 frames visible — the first 127, drop-newest —
and `overflow_count == 73`. -/
theorem claim4_ring_overflow :
    (∀ (r : Ring) (buffer : List Nat) (numread : Nat) (ts : Rat),
        0 < numread → (r.tail + 1) % PACKET_NUM = r.head →
        trace_read_enqueue r buffer numread ts = { r with overflow := r.overflow + 1 })
    ∧ (let r := (List.range 200).foldl (fun r i => trace_read_enqueue r [i] 1 0) Ring.init
       r.visibleCount = 127 ∧ r.overflow = 73
        ∧ r.visible.map (fun p => p.data) = (List.range 127).map (fun i => [i])) := by
  constructor
  · intro r buffer numread ts h1 h2
    simp [trace_read_enqueue, h1, h2]
  · set_option maxRecDepth 100000 in decide

/-- Witness for claim C4's first part at a concrete full ring. -/
theorem claim4_witness :
    trace_read_enqueue ⟨List.replicate PACKET_NUM ⟨[], 0, 0⟩, 0, 127, 0⟩ [5] 1 0
      = ⟨List.replicate PACKET_NUM ⟨[], 0, 0⟩, 0, 127, 1⟩ :=
  claim4_ring_overflow.1 ⟨List.replicate PACKET_NUM ⟨[], 0, 0⟩, 0, 127, 0⟩ [5] 1 0
    (by decide) (by decide)

/-! ### Claim C9: trailing-NUL stripping -/

/-- Claim C9 — in plain-text mode `tracestring_add` first strips all trailing
NUL bytes (processing the stripped buffer is the same as processing the
original), a buffer consisting entirely of NUL bytes adds nothing to the
store, and a buffer whose last byte is not NUL is processed byte-for-byte by
the split-and-append policy, its interior NUL bytes included. -/
theorem claim9_trailing_nul_strip (enabled : Nat → Bool) (ch : Nat)
    (buf : List Nat) (ts : Rat) (s : List TRACESTRING) (k : Nat) :
    tracestring_add enabled ch buf ts s
      = tracestring_add enabled ch (rstripNul buf) ts s
    ∧ tracestring_add enabled ch (List.replicate k 0) ts s = s
    ∧ (buf.getLast? ≠ some 0 →
        tracestring_add enabled ch buf ts s
          = if !enabled ch then s
            else buf.foldl (tracestring_addByte ch ts) s) := by
  refine ⟨?_, ?_, ?_⟩
  · rw [tracestring_add, tracestring_add, rstripNul_idem]
  · rw [tracestring_add, rstripNul_replicate]
    simp
  · intro h
    rw [tracestring_add, rstripNul_eq_self h]

/-- Witness for claim C9 at concrete inputs: an all-NUL buffer adds nothing,
and a buffer with an interior NUL but a non-NUL last byte is processed
unstripped. -/
theorem claim9_witness :
    tracestring_add (fun _ => true) 0 (List.replicate 3 0) 0 [] = []
    ∧ tracestring_add (fun _ => true) 0 [0, 65] 0 []
        = if !(fun _ : Nat => true) 0 then ([] : List TRACESTRING)
          else [0, 65].foldl (tracestring_addByte 0 0) [] :=
  ⟨(claim9_trailing_nul_strip (fun _ => true) 0 [0, 65] 0 [] 3).2.1,
   (claim9_trailing_nul_strip (fun _ => true) 0 [0, 65] 0 [] 3).2.2 (by decide)⟩

/-! ### Claim C8: newline bytes never stored -/

/-- Every byte in any line of `tracestring_addByte ch ts s b` either occurs in
a line of `s`, or is `b` itself with `b` neither CR nor LF. -/
theorem addByte_text_provenance (ch : Nat) (ts : Rat) (s : List TRACESTRING)
    (b : Nat) :
    ∀ t' ∈ tracestring_addByte ch ts s b, ∀ x ∈ t'.text,
      (∃ t ∈ s, x ∈ t.text) ∨ (x = b ∧ (b == 13 || b == 10) = false) := by
  intro t' ht' x hx
  rw [tracestring_addByte] at ht'
  cases hgl : s.getLast? with
  | none =>
    simp only [hgl] at ht'
    by_cases hb : (b == 13 || b == 10) = true
    · rw [if_pos hb] at ht'
      exact Or.inl ⟨t', ht', hx⟩
    · rw [if_neg hb] at ht'
      rcases List.mem_append.1 ht' with h | h
      · exact Or.inl ⟨t', h, hx⟩
      · have : t' = (⟨[b], TRACESTRING_INITSIZE, ch, ts, 0⟩ : TRACESTRING) :=
          List.mem_singleton.1 h
        rw [this] at hx
        exact Or.inr ⟨List.mem_singleton.1 hx, Bool.not_eq_true _ ▸ hb⟩
  | some t0 =>
    simp only [hgl] at ht'
    by_cases hb : (b == 13 || b == 10) = true
    · rw [if_pos hb] at ht'
      rcases mem_updateLast ht' with h | ⟨t, hts, rfl⟩
      · exact Or.inl ⟨t', h, hx⟩
      · exact Or.inl ⟨t, hts, hx⟩
    · rw [if_neg hb] at ht'
      by_cases hfl : (sealCheckFlags ch ts t0 &&& 1 == 0) = true
      · rw [if_pos hfl] at ht'
        rcases mem_updateLast ht' with h | ⟨t, hts, rfl⟩
        · exact Or.inl ⟨t', h, hx⟩
        · by_cases hlen : t.text.length < grownSize t0
          · rw [if_pos hlen] at hx
            simp only at hx
            rcases List.mem_append.1 hx with h | h
            · exact Or.inl ⟨t, hts, h⟩
            · exact Or.inr ⟨List.mem_singleton.1 h, Bool.not_eq_true _ ▸ hb⟩
          · rw [if_neg hlen] at hx
            exact Or.inl ⟨t, hts, hx⟩
      · rw [if_neg hfl] at ht'
        rcases List.mem_append.1 ht' with h | h
        · rcases mem_updateLast h with h' | ⟨t, hts, rfl⟩
          · exact Or.inl ⟨t', h', hx⟩
          · exact Or.inl ⟨t, hts, hx⟩
        · have : t' = (⟨[b], TRACESTRING_INITSIZE, ch, ts, 0⟩ : TRACESTRING) :=
            List.mem_singleton.1 h
          rw [this] at hx
          exact Or.inr ⟨List.mem_singleton.1 hx, Bool.not_eq_true _ ▸ hb⟩

/-- `tracestring_addByte` preserves the no-newline-bytes invariant. -/
theorem addByte_no_newline (ch : Nat) (ts : Rat) (s : List TRACESTRING)
    (b : Nat) (h : NoNewline s) : NoNewline (tracestring_addByte ch ts s b) := by
  intro t' ht' x hx
  rcases addByte_text_provenance ch ts s b t' ht' x hx with ⟨t, hts, hxt⟩ | ⟨rfl, hb⟩
  · exact h t hts x hxt
  · rw [Bool.or_eq_false_iff] at hb
    exact ⟨by simpa using hb.1, by simpa using hb.2⟩

/-- `tracestring_add` preserves the no-newline-bytes invariant. -/
theorem add_no_newline (enabled : Nat → Bool) (ch : Nat) (buf : List Nat)
    (ts : Rat) (s : List TRACESTRING) (h : NoNewline s) :
    NoNewline (tracestring_add enabled ch buf ts s) := by
  rw [tracestring_add]
  by_cases he : (!enabled ch) = true
  · rw [if_pos he]; exact h
  · rw [if_neg he]
    generalize rstripNul buf = l
    induction l generalizing s with
    | nil => exact h
    | cons a tl ih => exact ih _ (addByte_no_newline ch ts s a h)

/-- Claim C8 — in plain-text mode a CR or LF byte seals the current tail line
and is itself never appended; a leading CR or LF arriving when no line exists
is discarded; consequently, every store reachable from empty by plain-text
`tracestring_add` calls contains no 0x0D or 0x0A byte in any line's text. -/
theorem claim8_no_newline_in_text :
    (∀ (enabled : Nat → Bool) (ops : List (Nat × List Nat × Rat)),
        ∀ t ∈ tracestring_store enabled ops, ∀ b ∈ t.text, b ≠ 13 ∧ b ≠ 10)
    ∧ (∀ (ch : Nat) (ts : Rat) (s : List TRACESTRING) (b : Nat),
        (b = 13 ∨ b = 10) → s ≠ [] → tracestring_addByte ch ts s b = sealTail s)
    ∧ (∀ (ch : Nat) (ts : Rat) (b : Nat),
        (b = 13 ∨ b = 10) → tracestring_addByte ch ts [] b = []) := by
  refine ⟨?_, ?_, ?_⟩
  · intro enabled ops
    rw [tracestring_store]
    have : ∀ s : List TRACESTRING, NoNewline s →
        NoNewline (ops.foldl
          (fun s op => tracestring_add enabled op.1 op.2.1 op.2.2 s) s) := by
      induction ops with
      | nil => exact fun s hs => hs
      | cons op tl ih =>
        intro s hs
        exact ih _ (add_no_newline enabled op.1 op.2.1 op.2.2 s hs)
    exact this [] (by intro t ht; exact absurd ht (by simp))
  · intro ch ts s b hb hs
    have hb' : (b == 13 || b == 10) = true := by
      rcases hb with rfl | rfl <;> simp
    rw [tracestring_addByte]
    cases hgl : s.getLast? with
    | none => exact absurd (List.getLast?_eq_none_iff.1 hgl) hs
    | some t0 => simp [hb']
  · intro ch ts b hb
    have hb' : (b == 13 || b == 10) = true := by
      rcases hb with rfl | rfl <;> simp
    rw [tracestring_addByte]
    simp [hb']

/-- Witness for claim C8 at concrete inputs: CR seals a one-line store, a
leading LF on the empty store is discarded, and a concrete reachable store
contains no newline byte. -/
theorem claim8_witness :
    tracestring_addByte 0 0 [⟨[72], 32, 0, 0, 0⟩] 13 = sealTail [⟨[72], 32, 0, 0, 0⟩]
    ∧ tracestring_addByte 0 0 [] 10 = []
    ∧ ∀ t ∈ tracestring_store (fun _ => true) [(0, [72, 13, 10, 74], 0)],
        ∀ b ∈ t.text, b ≠ 13 ∧ b ≠ 10 :=
  ⟨claim8_no_newline_in_text.2.1 0 0 [⟨[72], 32, 0, 0, 0⟩] 13 (Or.inl rfl) (by decide),
   claim8_no_newline_in_text.2.2 0 0 10 (Or.inr rfl),
   claim8_no_newline_in_text.1 (fun _ => true) [(0, [72, 13, 10, 74], 0)]⟩

/-! ### Claim C2: `tracestring_findtimestamp` -/

/-- Claim C2 is false as stated: the counting loop stops at the first line
whose timestamp is not below the target, so `tracestring_findtimestamp`
returns `-1` for a NON-empty list whose first timestamp is ≥ the target
(refuting "returns -1 if and only if the list is empty"), and on an unsorted
list it ignores later lines with timestamp < ts (refuting "index of the last
line whose timestamp is < ts" for arbitrary lists). -/
theorem claim2_counterexample :
    tracestring_findtimestamp 2 [⟨[97], 32, 0, 5, 0⟩] = -1
    ∧ ([⟨[97], 32, 0, 5, 0⟩] : List TRACESTRING) ≠ []
    ∧ tracestring_findtimestamp 2 [⟨[97], 32, 0, 5, 0⟩, ⟨[98], 32, 0, 1, 0⟩] = -1
    ∧ (([⟨[97], 32, 0, 5, 0⟩, ⟨[98], 32, 0, 1, 0⟩] :
        List TRACESTRING).get ⟨1, by decide⟩).timestamp < 2 := by
  decide

/-- Claim C2 as amended — when the stored timestamps are non-decreasing (they
are, for lines appended in arrival order), `tracestring_findtimestamp ts`
returns the index of the last line whose timestamp is `< ts` when such a line
exists, and returns `-1` exactly when no line has timestamp `< ts` (in
particular, but not only, when the list is empty). -/
theorem claim2_amended (ts : Rat) (s : List TRACESTRING)
    (hsort : s.Pairwise (fun a b => a.timestamp ≤ b.timestamp)) :
    (tracestring_findtimestamp ts s = -1 ↔ ∀ t ∈ s, ts ≤ t.timestamp)
    ∧ (∀ (i : Nat) (hi : i < s.length),
        (s.get ⟨i, hi⟩).timestamp < ts →
        (∀ (j : Nat) (hj : j < s.length), i < j → ts ≤ (s.get ⟨j, hj⟩).timestamp) →
        tracestring_findtimestamp ts s = i) := by
  induction s with
  | nil =>
    refine ⟨by simp [tracestring_findtimestamp, tracestring_findtimestamp_loop], ?_⟩
    intro i hi
    exact absurd hi (by simp)
  | cons t rest ih =>
    rw [List.pairwise_cons] at hsort
    obtain ⟨hall, hrest⟩ := hsort
    obtain ⟨ih1, ih2⟩ := ih hrest
    by_cases hlt : t.timestamp < ts
    · have hloop : tracestring_findtimestamp_loop ts (t :: rest)
          = tracestring_findtimestamp_loop ts rest + 1 := by
        simp [tracestring_findtimestamp_loop, hlt]
      constructor
      · constructor
        · intro h
          exfalso
          rw [tracestring_findtimestamp, hloop] at h
          omega
        · intro h
          exact absurd hlt (not_lt.2 (h t (List.mem_cons_self t rest)))
      · intro i hi h1 h2
        rw [tracestring_findtimestamp, hloop]
        cases i with
        | zero =>
          have hz : tracestring_findtimestamp_loop ts rest = 0 := by
            cases rest with
            | nil => rfl
            | cons u rest' =>
              have hu : ts ≤ u.timestamp := h2 1 (by simp) (by omega)
              simp [tracestring_findtimestamp_loop, not_lt.2 hu]
          rw [hz]
          rfl
        | succ i' =>
          have hi' : i' < rest.length := by simpa using hi
          have := ih2 i' hi' h1 (fun j hj hij =>
            h2 (j + 1) (by simpa using hj) (by omega))
          rw [tracestring_findtimestamp] at this
          omega
    · have hloop : tracestring_findtimestamp_loop ts (t :: rest) = 0 := by
        simp [tracestring_findtimestamp_loop, hlt]
      constructor
      · rw [tracestring_findtimestamp, hloop]
        refine ⟨fun _ => ?_, fun _ => rfl⟩
        intro u hu
        rcases List.mem_cons.1 hu with h | h
        · exact h ▸ not_lt.1 hlt
        · exact le_trans (not_lt.1 hlt) (hall u h)
      · intro i hi h1 h2
        cases i with
        | zero => exact absurd h1 hlt
        | succ i' =>
          exfalso
          have hi' : i' < rest.length := by simpa using hi
          have hmem : rest.get ⟨i', hi'⟩ ∈ rest := rest.get_mem i' hi'
          have : ts ≤ (rest.get ⟨i', hi'⟩).timestamp :=
            le_trans (not_lt.1 hlt) (hall _ hmem)
          exact absurd h1 (not_lt.2 this)

/-- Witness for claim C2's amended theorem on a concrete sorted store. -/
theorem claim2_witness :
    tracestring_findtimestamp 2
      [⟨[97], 32, 0, 0, 0⟩, ⟨[98], 32, 0, 1, 0⟩, ⟨[99], 32, 0, 5, 0⟩] = 1 :=
  (claim2_amended 2 _ (by decide)).2 1 (by decide) (by decide) (by decide)

/-! ### Claim C5: invalid-header recovery -/

/-- Claim C5 — whenever the decoding loop of `tracestring_process` meets a
leading byte that is neither `0x17` nor a valid ITM header, it increments
`itm_packet_errors` by exactly one, resets the CTF decoder state, and
abandons the remainder of that frame with the store, cache and data size
untouched (`skip_packet_error` changes nothing else); the same holds for a
frame starting with such a byte; concretely, the frame `FF 00 00` yields
`packet_errors == 1` and no trace lines, and a subsequent frame is decoded
afresh. -/
theorem claim5_invalid_header_recovery :
    (∀ (chmap : Nat → Bool) (ts : Rat) (fuel chan : Nat) (buffer : List Nat)
        (st : TraceState) (b : Nat) (rest : List Nat),
        b ≠ 23 → ITM_VALIDHDR b = false →
        itm_loop chmap ts (fuel + 1) chan buffer st (b :: rest) = skip_packet_error st)
    ∧ (∀ (chmap : Nat → Bool) (ts : Rat) (st : TraceState) (b : Nat) (rest : List Nat),
        st.itm_cache = [] → b ≠ 23 → ITM_VALIDHDR b = false →
        tracestring_process_frame chmap st (b :: rest) ts = skip_packet_error st)
    ∧ tracestring_process true (fun _ => true) [([255, 0, 0], 0)] ⟨[], 1, false, 0, 7, []⟩
        = ⟨[], 1, false, 1, 0, []⟩
    ∧ tracestring_process true (fun _ => true) [([255, 0, 0], 0), ([1, 65], 0)]
        ⟨[], 1, false, 0, 7, []⟩
        = ⟨[], 1, false, 1, 0, [⟨[65], 32, 0, 0, 0⟩]⟩ := by
  have h1 : ∀ (chmap : Nat → Bool) (ts : Rat) (fuel chan : Nat) (buffer : List Nat)
      (st : TraceState) (b : Nat) (rest : List Nat),
      b ≠ 23 → ITM_VALIDHDR b = false →
      itm_loop chmap ts (fuel + 1) chan buffer st (b :: rest) = skip_packet_error st := by
    intro chmap ts fuel chan buffer st b rest hb hv
    have h23 : (b == 23) = false := beq_eq_false_iff_ne.2 hb
    simp [itm_loop, h23, hv]
  refine ⟨h1, ?_, by decide, by decide⟩
  intro chmap ts st b rest hcache hb hv
  rw [tracestring_process_frame, hcache]
  exact h1 chmap ts _ _ [] st b rest hb hv

/-- Witness for claim C5's quantified parts at a concrete invalid byte. -/
theorem claim5_witness :
    itm_loop (fun _ => true) 0 3 0 [] ⟨[], 1, false, 0, 7, []⟩ [255, 0]
      = skip_packet_error ⟨[], 1, false, 0, 7, []⟩
    ∧ tracestring_process_frame (fun _ => true) ⟨[], 1, false, 0, 7, []⟩ [255, 0] 0
      = skip_packet_error ⟨[], 1, false, 0, 7, []⟩ :=
  ⟨claim5_invalid_header_recovery.1 (fun _ => true) 0 2 0 [] ⟨[], 1, false, 0, 7, []⟩
     255 [0] (by decide) (by decide),
   claim5_invalid_header_recovery.2.1 (fun _ => true) 0 ⟨[], 1, false, 0, 7, []⟩
     255 [0] rfl (by decide) (by decide)⟩

/-! ### Claim C6: `tracestring_find` termination -/

/-- Claim C6 is contradicted by the code: with a single stored line `"a"`,
search text `"x"` (no match) and `curline = 0` (the last line), the search
loop of `tracestring_find` never returns — after wrapping, `line` is reset
to 0 before the loop condition `line != cur_mark` is ever tested at
`cur_mark = 1`, so the loop cycles through the list forever.  The theorem
evaluates the model of the loop at this input: for every iteration budget it
is still running. -/
theorem claim6_find_nonterminating :
    ∀ fuel : Nat,
      tracestring_find [⟨[97], 32, 0, 0, 0⟩] [120] 0 fuel = none := by
  have key : ∀ f : Nat,
      tracestring_find_loop [⟨[97], 32, 0, 0, 0⟩] [120] 1 1 0 f = none := by
    intro f
    induction f with
    | zero => rfl
    | succ f ih => exact ih
  intro fuel
  cases fuel with
  | zero => rfl
  | succ f => exact key f

/-! ### Claim C3: zoom round-trip -/

/-- Claim C3 is false as stated: from the permitted configuration
`(spacing, scale, delta) = (10, 1000000, 1)` (spacing ≥ 10, scale in the
permitted set, 1 ≤ delta ≤ 100), zoom-in followed by zoom-out yields
`(100, 1000000, 10)` — spacing and delta are 10× the original, far outside
1%. -/
theorem claim3_counterexample :
    timeline_widget_zoomout (timeline_widget_zoomin ⟨10, 1000000, 1⟩)
      = ⟨100, 1000000, 10⟩
    ∧ ¬ withinOnePercent (100 : Rat) 10
    ∧ ¬ withinOnePercent (10 : Rat) 1 := by
  refine ⟨?_, ?_, ?_⟩
  · have hin : timeline_widget_zoomin ⟨10, 1000000, 1⟩ = ⟨15, 1000000, 1⟩ := by
      unfold timeline_widget_zoomin
      rw [if_neg (by norm_num)]
      norm_num
    rw [hin]
    unfold timeline_widget_zoomout
    rw [if_pos (by norm_num : (⟨15, 1000000, 1⟩ : TimelineCfg).mark_spacing > 45
          ∨ (⟨15, 1000000, 1⟩ : TimelineCfg).mark_scale < 60000000
          ∨ (⟨15, 1000000, 1⟩ : TimelineCfg).mark_deltatime = 1)]
    norm_num
  · rw [withinOnePercent]
    norm_num
  · rw [withinOnePercent]
    norm_num

/-- Claim C3 as amended — for configurations whose spacing lies in the band
`70 ≤ mark_spacing ≤ 466` (so that neither zoom step crosses a rescaling
threshold: `1.5·s ≤ 699 ≤ 700` on the way in, `s ≥ 70` on the way out), one
zoom-in followed by one zoom-out restores `(mark_spacing, mark_scale,
mark_deltatime)` exactly — in particular to within 1%. -/
theorem claim3_amended (s : Rat) (scale delta : Nat)
    (h1 : 70 ≤ s) (h2 : s ≤ 466) :
    timeline_widget_zoomout (timeline_widget_zoomin ⟨s, scale, delta⟩)
      = ⟨s, scale, delta⟩ := by
  have hin : timeline_widget_zoomin ⟨s, scale, delta⟩ = ⟨s * (3/2), scale, delta⟩ := by
    unfold timeline_widget_zoomin
    rw [if_neg]
    rintro ⟨hgt, -⟩
    simp only at hgt
    linarith
  rw [hin]
  have hcancel : s * (3/2) / (3/2) = s :=
    mul_div_cancel_right₀ s (by norm_num)
  unfold timeline_widget_zoomout
  simp only
  rw [if_pos (Or.inl (by linarith : s * (3/2) > 45)), hcancel,
      if_neg (not_lt.2 h1)]

/-- Witness for claim C3's amended theorem. -/
theorem claim3_witness :
    timeline_widget_zoomout (timeline_widget_zoomin ⟨100, 1000000, 1⟩)
      = ⟨100, 1000000, 1⟩ :=
  claim3_amended 100 1000000 1 (by norm_num) (by norm_num)

/-! ### Claim C1: carry correctness -/

/-- Claim C1 is false as stated: the trailing-NUL strip of `tracestring_add`
(swotrace.c lines 255-256) runs once per emission, so a NUL payload byte that
reaches the end of a transport frame is stripped, while the same byte decoded
in the middle of a single frame is stored.  The stream
`01 00 01 41` (two one-byte packets on channel 0, payloads `00` and `41`)
split after two bytes yields the line `"A"`, while the unsplit stream yields
`"\0A"`. -/
theorem claim1_counterexample :
    (tracestring_process true (fun _ => true) [([1, 0], 0), ([1, 65], 0)]
        ⟨[], 4, false, 0, 7, []⟩).store.map (fun t => (t.channel, t.text))
    ≠ (tracestring_process true (fun _ => true) [([1, 0, 1, 65], 0)]
        ⟨[], 4, false, 0, 7, []⟩).store.map (fun t => (t.channel, t.text)) := by
  decide

/-- Channel numbers extracted from a header are always in range. -/
theorem ITM_CHANNEL_lt (b : Nat) : ITM_CHANNEL b < 32 :=
  Nat.mod_lt _ (by norm_num)

/-- A valid header's payload length is 1, 2 or 4 — in particular at most 4. -/
theorem ITM_LENGTH_le_four {b : Nat} (h : ITM_VALIDHDR b = true) :
    ITM_LENGTH b ≤ 4 := by
  rw [ITM_VALIDHDR, Bool.and_eq_true, decide_eq_true_iff, decide_eq_true_iff] at h
  rw [ITM_LENGTH]
  split
  · exact le_refl 4
  · omega

/-- A valid header's payload length is positive. -/
theorem ITM_LENGTH_pos {b : Nat} (h : ITM_VALIDHDR b = true) :
    0 < ITM_LENGTH b := by
  rw [ITM_VALIDHDR, Bool.and_eq_true, decide_eq_true_iff, decide_eq_true_iff] at h
  rw [ITM_LENGTH]
  split
  · omega
  · omega

/-- A valid header is never the PC-sample header `0x17`. -/
theorem ITM_VALIDHDR_ne_23 {b : Nat} (h : ITM_VALIDHDR b = true) : b ≠ 23 := by
  intro hb
  subst hb
  exact absurd h (by decide)

/-- With no NUL bytes in the buffer, a plain-text emission is the left fold
of the per-byte policy over the channel-tagged buffer. -/
theorem add_eq_foldTag (chmap : Nat → Bool) (ch : Nat) (buf : List Nat)
    (ts : Rat) (s : List TRACESTRING) (h : ∀ b ∈ buf, b ≠ 0) :
    tracestring_add chmap ch buf ts s
      = List.foldl (addTag chmap ts) s (buf.map (fun b => (ch, b))) := by
  rw [tracestring_add, rstripNul_of_no_nul h, List.foldl_map]
  by_cases he : chmap ch = true
  · rw [if_neg (by simp [he])]
    simp only [addTag, he, if_true]
  · rw [if_pos (by simp [he])]
    have : ∀ (l : List Nat) (s : List TRACESTRING),
        List.foldl (fun s b => addTag chmap ts s (ch, b)) s l = s := by
      intro l
      induction l with
      | nil => intro s; rfl
      | cons a tl ih => intro s; rw [List.foldl_cons]; rw [addTag, if_neg (by simp [he])]; exact ih s
    exact (this buf s).symm

/-- `taggedStream` distributes over append. -/
theorem taggedStream_append (ps qs : List ItmPacket) :
    taggedStream (ps ++ qs) = taggedStream ps ++ taggedStream qs := by
  simp [taggedStream]

/-- The wire bytes of a cons stream. -/
theorem streamBytes_cons (p : ItmPacket) (ps : List ItmPacket) :
    streamBytes (p :: ps) = p.hdr :: (p.payload ++ streamBytes ps) := by
  simp [streamBytes, pktBytes]

/-- A stream with no wire bytes is empty. -/
theorem streamBytes_eq_nil {ps : List ItmPacket} (h : streamBytes ps = []) :
    ps = [] := by
  cases ps with
  | nil => rfl
  | cons p tl => rw [streamBytes_cons] at h; exact absurd h (by simp)

/-- The tagged bytes of a cons stream. -/
theorem taggedStream_cons (p : ItmPacket) (ps : List ItmPacket) :
    taggedStream (p :: ps) = taggedPkt p ++ taggedStream ps := by
  simp [taggedStream]

/-- Splitting an append equation at the length of the third list. -/
theorem append_eq_split {α : Type} (l₁ l₂ l₃ l₄ : List α)
    (h : l₁ ++ l₂ = l₃ ++ l₄) (hlen : l₃.length ≤ l₁.length) :
    l₁.take l₃.length = l₃ ∧ l₁.drop l₃.length ++ l₂ = l₄ := by
  constructor
  · have := congrArg (List.take l₃.length) h
    rwa [List.take_append_of_le_length hlen, List.take_left] at this
  · have := congrArg (List.drop l₃.length) h
    rwa [List.drop_append_of_le_length hlen, List.drop_left] at this

/-- The final per-frame emission, rephrased as a fold over tagged bytes. -/
theorem itm_emit_eq_fold (chmap : Nat → Bool) (ts : Rat) (chan : Nat)
    (buffer : List Nat) (st : TraceState)
    (hchan : chan < 32) (hbuf : ∀ b ∈ buffer, b ≠ 0) :
    itm_emit chmap ts chan buffer st
      = { st with store := List.foldl (addTag chmap ts) st.store
                    (buffer.map (fun b => (chan, b))) } := by
  rw [itm_emit]
  cases buffer with
  | nil => simp
  | cons a tl =>
    rw [if_pos ⟨by rw [NUM_CHANNELS]; exact hchan, by simp⟩]
    rw [add_eq_foldTag chmap chan (a :: tl) ts st.store hbuf]

/-- The decoding loop of `tracestring_process` on a well-formed stimulus
stream: starting anywhere inside the stream at a packet boundary, with the
cache empty and a data size of 4 (so the size policy never fires), the loop
consumes the complete packets that fit in the frame, leaves the straddling
remainder (if any) in the carry cache, and appends exactly the tagged payload
bytes of the consumed packets (after the pending working buffer) to the
store. -/
theorem itm_loop_spec (chmap : Nat → Bool) (ts : Rat) :
    ∀ (ps : List ItmPacket) (P Rest : List Nat) (chan : Nat) (buffer : List Nat)
      (st : TraceState) (fuel : Nat),
      WFstream ps →
      P ++ Rest = streamBytes ps →
      chan < 32 →
      (∀ b ∈ buffer, b ≠ 0) →
      st.itm_cache = [] →
      st.itm_datasize = 4 →
      P.length < fuel →
      ∃ (psD psL : List ItmPacket) (c : List Nat),
        ps = psD ++ psL ∧
        c ++ Rest = streamBytes psL ∧
        CacheOK c psL ∧
        itm_loop chmap ts fuel chan buffer st P =
          { st with itm_cache := c,
                    store := List.foldl (addTag chmap ts) st.store
                               (buffer.map (fun b => (chan, b)) ++ taggedStream psD) } := by
  intro ps
  induction ps with
  | nil =>
    intro P Rest chan buffer st fuel hwf hP hchan hbuf hcache hds hfuel
    have hPnil : P = [] := by
      have hlen := congrArg List.length hP
      simp only [List.length_append] at hlen
      have : streamBytes [] = [] := rfl
      rw [this] at hlen
      simp only [List.length_nil] at hlen
      exact List.eq_nil_of_length_eq_zero (by omega)
    subst hPnil
    obtain ⟨f, rfl⟩ : ∃ f, fuel = f + 1 := ⟨fuel - 1, by omega⟩
    refine ⟨[], [], [], rfl, by simpa using hP, Or.inl rfl, ?_⟩
    rw [itm_loop, itm_emit_eq_fold chmap ts chan buffer st hchan hbuf, ← hcache]
    simp [taggedStream]
  | cons p ps' ih =>
    intro P Rest chan buffer st fuel hwf hP hchan hbuf hcache hds hfuel
    obtain ⟨hvalid, hplen, hpnul⟩ : WFpacket p := hwf p (List.mem_cons_self p ps')
    have hwf' : WFstream ps' := fun q hq => hwf q (List.mem_cons_of_mem p hq)
    cases P with
    | nil =>
      obtain ⟨f, rfl⟩ : ∃ f, fuel = f + 1 := ⟨fuel - 1, by omega⟩
      refine ⟨[], p :: ps', [], rfl, by simpa using hP, Or.inl rfl, ?_⟩
      rw [itm_loop, itm_emit_eq_fold chmap ts chan buffer st hchan hbuf, ← hcache]
      simp [taggedStream]
    | cons b P₂ =>
      obtain ⟨f, rfl⟩ : ∃ f, fuel = f + 1 := ⟨fuel - 1, by omega⟩
      have hPfull := hP
      rw [streamBytes_cons, List.cons_append] at hP
      injection hP with hb hP₂
      subst hb
      have h23 : (p.hdr == 23) = false :=
        beq_eq_false_iff_ne.2 (ITM_VALIDHDR_ne_23 hvalid)
      have hlen4 : ITM_LENGTH p.hdr ≤ 4 := ITM_LENGTH_le_four hvalid
      by_cases hsmall : (p.hdr :: P₂).length < ITM_LENGTH p.hdr + 1
      · -- the packet straddles the end of the frame: cache it
        have hP₂len : P₂.length < p.payload.length := by
          simp only [List.length_cons] at hsmall
          omega
        have hP₂take : P₂.take P₂.length = p.payload.take P₂.length := by
          have := congrArg (List.take P₂.length) hP₂
          rwa [List.take_append_of_le_length (le_refl _),
               List.take_append_of_le_length (le_of_lt hP₂len)] at this
        have hcOK : CacheOK (p.hdr :: P₂) (p :: ps') := by
          refine Or.inr ⟨p, ps', rfl, by simp, ?_, ?_⟩
          · simp only [pktBytes, List.length_cons]
            omega
          · have h2 : P₂ = p.payload.take P₂.length := by
              rw [← hP₂take, List.take_length]
            simp only [pktBytes, List.length_cons, List.take_succ_cons]
            rw [← h2]
        refine ⟨[], p :: ps', p.hdr :: P₂, rfl, hPfull, hcOK, ?_⟩
        by_cases hch : chan = ITM_CHANNEL p.hdr
        · simp only [itm_loop, h23, Bool.false_eq_true, if_false, hvalid,
            Bool.not_true, hch, ne_eq, not_true_eq_false, if_pos hsmall]
          rw [itm_emit_eq_fold chmap ts (ITM_CHANNEL p.hdr) buffer _ (ITM_CHANNEL_lt _) hbuf]
          simp [taggedStream, hch]
        · simp only [itm_loop, h23, Bool.false_eq_true, if_false, hvalid,
            Bool.not_true, ne_eq, hch, not_false_eq_true, if_pos hsmall]
          rw [itm_emit_eq_fold chmap ts chan buffer st hchan hbuf]
          simp [itm_emit, taggedStream]
      · -- a complete packet: consume it and recurse
        have hlenP₂ : p.payload.length ≤ P₂.length := by
          simp only [List.length_cons] at hsmall
          omega
        obtain ⟨htake, hdrop⟩ := append_eq_split P₂ Rest p.payload
          (streamBytes ps') hP₂ hlenP₂
        have hdropfuel : (P₂.drop p.payload.length).length < f := by
          rw [List.length_drop]
          simp only [List.length_cons] at hfuel
          omega
        -- facts shared by both channel cases
        have happly : ∀ (chan' : Nat) (buffer' : List Nat) (st' : TraceState),
            chan' < 32 → (∀ x ∈ buffer', x ≠ 0) →
            st'.itm_cache = [] → st'.itm_datasize = 4 →
            ∃ (psD psL : List ItmPacket) (c : List Nat),
              ps' = psD ++ psL ∧
              c ++ Rest = streamBytes psL ∧
              CacheOK c psL ∧
              itm_loop chmap ts f chan' (buffer' ++ p.payload) st'
                  (P₂.drop p.payload.length) =
                { st' with itm_cache := c,
                           store := List.foldl (addTag chmap ts) st'.store
                             ((buffer' ++ p.payload).map (fun x => (chan', x))
                               ++ taggedStream psD) } := by
          intro chan' buffer' st' hchan' hbuf' hc' hd'
          exact ih (P₂.drop p.payload.length) Rest chan' (buffer' ++ p.payload) st' f
            hwf' hdrop hchan'
            (by intro x hx
                rcases List.mem_append.1 hx with h | h
                · exact hbuf' x h
                · exact hpnul x h)
            hc' hd' hdropfuel
        by_cases hch : chan = ITM_CHANNEL p.hdr
        · obtain ⟨psD, psL, c, hsplit, hcRest, hcOK, heq⟩ :=
            happly chan buffer st hchan hbuf hcache hds
          rw [hch] at heq
          refine ⟨p :: psD, psL, c, by simp [hsplit], hcRest, hcOK, ?_⟩
          have hds' : ¬(st.itm_datasize < ITM_LENGTH p.hdr) := by omega
          simp only [itm_loop, h23, Bool.false_eq_true, if_false, hvalid,
            Bool.not_true, hch, ne_eq, not_true_eq_false, if_neg hsmall,
            if_neg hds']
          rw [show (p.hdr :: P₂).drop (ITM_LENGTH p.hdr + 1) = P₂.drop p.payload.length by
            rw [List.drop_succ_cons, hplen]]
          rw [show P₂.take (ITM_LENGTH p.hdr) = p.payload by rw [← hplen, htake]]
          rw [heq]
          rw [taggedStream_cons]
          simp only [List.map_append, taggedPkt, hch]
          rw [List.append_assoc]
        · obtain ⟨psD, psL, c, hsplit, hcRest, hcOK, heq⟩ :=
            happly (ITM_CHANNEL p.hdr) []
              { st with store := List.foldl (addTag chmap ts) st.store
                          (buffer.map (fun x => (chan, x))) }
              (ITM_CHANNEL_lt _) (by intro x hx; exact absurd hx (by simp))
              hcache hds
          refine ⟨p :: psD, psL, c, by simp [hsplit], hcRest, hcOK, ?_⟩
          have hds' : ¬(st.itm_datasize < ITM_LENGTH p.hdr) := by omega
          simp only [itm_loop, h23, Bool.false_eq_true, if_false, hvalid,
            Bool.not_true, ne_eq, hch, not_false_eq_true, if_true, if_neg hsmall]
          rw [itm_emit_eq_fold chmap ts chan buffer st hchan hbuf]
          simp only [if_neg hds']
          rw [show (p.hdr :: P₂).drop (ITM_LENGTH p.hdr + 1) = P₂.drop p.payload.length by
            rw [List.drop_succ_cons, hplen]]
          rw [show P₂.take (ITM_LENGTH p.hdr) = p.payload by rw [← hplen, htake]]
          rw [heq]
          rw [taggedStream_cons]
          simp [taggedPkt, List.foldl_append]

/-- One frame of `tracestring_process` on a well-formed stimulus stream:
with a legal carry cache for the pending packets, a frame of at least 4 bytes
(enough to complete any cached packet) consumes the packets it covers,
leaves a legal carry for the next frame, and appends exactly the consumed
packets' tagged payload bytes to the store. -/
theorem tracestring_process_frame_spec (chmap : Nat → Bool) (ts : Rat)
    (ps : List ItmPacket) (c F Rest : List Nat) (st : TraceState)
    (hwf : WFstream ps)
    (hcOK : CacheOK c ps)
    (hcache : st.itm_cache = c)
    (hds : st.itm_datasize = 4)
    (hF : c ≠ [] → 4 ≤ F.length)
    (hbytes : c ++ (F ++ Rest) = streamBytes ps) :
    ∃ (psD psL : List ItmPacket) (c' : List Nat),
      ps = psD ++ psL ∧
      c' ++ Rest = streamBytes psL ∧
      CacheOK c' psL ∧
      tracestring_process_frame chmap st F ts =
        { st with itm_cache := c',
                  store := List.foldl (addTag chmap ts) st.store (taggedStream psD) } := by
  rcases hcOK with rfl | ⟨p, ps', rfl, hcne, hclen, hcpre⟩
  · -- the carry cache is empty: decode the frame from its first byte
    cases F with
    | nil =>
      refine ⟨[], ps, [], rfl, by simpa using hbytes, Or.inl rfl, ?_⟩
      rw [tracestring_process_frame]
      simp only [hcache]
      rw [← hcache]
      simp [taggedStream]
    | cons b F₂ =>
      obtain ⟨psD, psL, c', h1, h2, h3, heq⟩ :=
        itm_loop_spec chmap ts ps (b :: F₂) Rest (ITM_CHANNEL b) [] st
          ((b :: F₂).length + 1) hwf (by simpa using hbytes) (ITM_CHANNEL_lt b)
          (by simp) hcache hds (by omega)
      refine ⟨psD, psL, c', h1, h2, h3, ?_⟩
      rw [tracestring_process_frame]
      simp only [hcache]
      rw [heq]
      simp
  · -- the cache holds a proper prefix of the first pending packet
    obtain ⟨hvalid, hplen, hpnul⟩ : WFpacket p := hwf p (List.mem_cons_self p ps')
    have hwf' : WFstream ps' := fun q hq => hwf q (List.mem_cons_of_mem p hq)
    have hF4 : 4 ≤ F.length := hF hcne
    cases c with
    | nil => exact absurd rfl hcne
    | cons c0 ctail =>
      rw [pktBytes, List.length_cons, List.take_succ_cons] at hcpre
      injection hcpre with hc0 hctail
      subst hc0
      have hklen : ctail.length < p.payload.length := by
        rw [pktBytes, List.length_cons] at hclen
        simp only [List.length_cons] at hclen
        omega
      have hlen4 : ITM_LENGTH p.hdr ≤ 4 := ITM_LENGTH_le_four hvalid
      -- peel the cached prefix off the stream bytes
      have hrest : F ++ Rest = p.payload.drop ctail.length ++ streamBytes ps' := by
        rw [streamBytes_cons] at hbytes
        rw [List.cons_append] at hbytes
        injection hbytes with _ h2
        have hsplitp : p.payload = p.payload.take ctail.length ++ p.payload.drop ctail.length :=
          (List.take_append_drop ctail.length p.payload).symm
        rw [hsplitp, List.append_assoc] at h2
        rw [← hctail] at h2
        exact List.append_cancel_left h2
      have hdlen : (p.payload.drop ctail.length).length ≤ F.length := by
        rw [List.length_drop]
        omega
      obtain ⟨htake, hdrop⟩ := append_eq_split F Rest (p.payload.drop ctail.length)
        (streamBytes ps') hrest hdlen
      -- the reassembled buffer is exactly the packet's payload
      have hskip : ITM_LENGTH p.hdr - ctail.length = (p.payload.drop ctail.length).length := by
        rw [List.length_drop, hplen]
      have hbuffer : ctail ++ F.take (ITM_LENGTH p.hdr - ctail.length) = p.payload := by
        rw [hskip, htake]
        nth_rewrite 1 [hctail]
        exact List.take_append_drop ctail.length p.payload
      obtain ⟨psD, psL, c', h1, h2, h3, heq⟩ :=
        itm_loop_spec chmap ts ps' (F.drop (ITM_LENGTH p.hdr - ctail.length)) Rest
          (ITM_CHANNEL p.hdr) p.payload { st with itm_cache := [] }
          ((F.drop (ITM_LENGTH p.hdr - ctail.length)).length + 1) hwf'
          (by rw [hskip]; exact hdrop) (ITM_CHANNEL_lt _) hpnul rfl hds (by omega)
      refine ⟨p :: psD, psL, c', by simp [h1], h2, h3, ?_⟩
      have hnoerr : ¬(st.itm_datasize < ITM_LENGTH p.hdr ∧ ¬st.itm_datasz_auto = true) := by
        intro h
        omega
      have hnoadj : ¬(st.itm_datasize < ITM_LENGTH p.hdr) := by omega
      rw [tracestring_process_frame.eq_def]
      simp only [hcache, if_neg hnoerr, if_neg hnoadj]
      rw [hbuffer, heq, taggedStream_cons]
      simp [taggedPkt, List.foldl_append]

/-- Draining a whole frame sequence: folding `tracestring_process_frame` over
frames of at least 4 bytes each whose bytes (after the incoming carry) form a
well-formed stimulus stream appends exactly the consumed packets' tagged
payload bytes, carrying the final partial packet (if any) in the cache. -/
theorem tracestring_process_spec (chmap : Nat → Bool) (ts : Rat) :
    ∀ (frames : List (List Nat)) (ps : List ItmPacket) (c : List Nat) (st : TraceState),
      WFstream ps →
      CacheOK c ps →
      st.itm_cache = c →
      st.itm_datasize = 4 →
      (∀ F ∈ frames, 4 ≤ F.length) →
      c ++ frames.flatten = streamBytes ps →
      ∃ (psD psL : List ItmPacket) (c' : List Nat),
        ps = psD ++ psL ∧
        c' = streamBytes psL ∧
        CacheOK c' psL ∧
        tracestring_process true chmap (frames.map (fun F => (F, ts))) st =
          { st with itm_cache := c',
                    store := List.foldl (addTag chmap ts) st.store (taggedStream psD) } := by
  intro frames
  induction frames with
  | nil =>
    intro ps c st hwf hcOK hcache hds hlen hbytes
    refine ⟨[], ps, c, rfl, by simpa using hbytes, hcOK, ?_⟩
    rw [tracestring_process]
    simp only [List.map_nil, List.foldl_nil]
    rw [← hcache]
    simp [taggedStream]
  | cons F frames' ih =>
    intro ps c st hwf hcOK hcache hds hlen hbytes
    rw [List.flatten_cons] at hbytes
    rw [← List.append_assoc] at hbytes
    obtain ⟨psD₁, psL₁, c₁, h1, h2, h3, heq1⟩ :=
      tracestring_process_frame_spec chmap ts ps c F frames'.flatten st hwf hcOK
        hcache hds (fun _ => hlen F (by simp)) (by rw [List.append_assoc] at hbytes; exact hbytes)
    have hwf₁ : WFstream psL₁ := by
      intro q hq
      exact hwf q (by rw [h1]; exact List.mem_append_right psD₁ hq)
    obtain ⟨psD₂, psL₂, c₂, h1', h2', h3', heq2⟩ :=
      ih psL₁ c₁
        { st with itm_cache := c₁,
                  store := List.foldl (addTag chmap ts) st.store (taggedStream psD₁) }
        hwf₁ h3 rfl hds (fun G hG => hlen G (List.mem_cons_of_mem F hG)) h2
    refine ⟨psD₁ ++ psD₂, psL₂, c₂, by rw [h1, h1', List.append_assoc], h2', h3', ?_⟩
    have hstep : tracestring_process true chmap
          (((F :: frames').map (fun G => (G, ts)))) st
        = tracestring_process true chmap (frames'.map (fun G => (G, ts)))
            (tracestring_process_frame chmap st F ts) := by
      rw [tracestring_process, tracestring_process]
      simp
    rw [hstep, heq1, heq2]
    simp [taggedStream_append, List.foldl_append]

/-- A legal carry that is itself the whole remaining byte stream forces both
to be empty (a cache is always a strict prefix of one packet). -/
theorem cache_terminal {c : List Nat} {psL : List ItmPacket}
    (hOK : CacheOK c psL) (h : c = streamBytes psL) : psL = [] ∧ c = [] := by
  rcases hOK with rfl | ⟨p, ps', rfl, hne, hlen, hpre⟩
  · exact ⟨streamBytes_eq_nil h.symm, rfl⟩
  · exfalso
    have hlc := congrArg List.length h
    rw [streamBytes_cons, List.length_cons, List.length_append] at hlc
    rw [pktBytes, List.length_cons] at hlen
    omega

/-- Claim C1 as amended — for streams of well-formed ITM stimulus packets
(valid headers, payload lengths matching the header size field and at most
the configured data size of 4, no PC-sample packets — a valid stimulus header
is never `0x17` — and no NUL payload bytes), decoding the stream split at
arbitrary packet-boundary-agnostic frame boundaries, with every frame at
least 4 bytes (so a frame always completes a straddling packet; the C code
reads out of bounds otherwise) and at most 64 bytes, produces exactly the
same decoder state and trace-line store — in particular the same `TraceLine`
channels and texts — as decoding the whole stream as a single frame, all
frames carrying one common timestamp. -/
theorem claim1_carry_correctness_amended (chmap : Nat → Bool) (ts : Rat)
    (ps : List ItmPacket) (frames : List (List Nat)) (st : TraceState)
    (hwf : WFstream ps)
    (hcat : frames.flatten = streamBytes ps)
    (hfr : ∀ F ∈ frames, 4 ≤ F.length ∧ F.length ≤ PACKET_SIZE)
    (hcache : st.itm_cache = [])
    (hds : st.itm_datasize = 4) :
    tracestring_process true chmap (frames.map (fun F => (F, ts))) st
      = tracestring_process true chmap [(streamBytes ps, ts)] st := by
  obtain ⟨psD, psL, c', h1, h2, h3, heqL⟩ :=
    tracestring_process_spec chmap ts frames ps [] st hwf (Or.inl rfl) hcache hds
      (fun F hF => (hfr F hF).1) (by simpa using hcat)
  obtain ⟨hpsL, hc'⟩ := cache_terminal h3 h2
  have hpsD : psD = ps := by rw [h1, hpsL, List.append_nil]
  rw [hpsD, hc'] at heqL
  obtain ⟨psD', psL', c'', h1', h2', h3', heqR⟩ :=
    tracestring_process_frame_spec chmap ts ps [] (streamBytes ps) [] st hwf
      (Or.inl rfl) hcache hds (fun h => absurd rfl h) (by simp)
  obtain ⟨hpsL', hc''⟩ := cache_terminal h3' (by simpa using h2')
  have hpsD' : psD' = ps := by rw [h1', hpsL', List.append_nil]
  rw [hpsD', hc''] at heqR
  have hsingle : tracestring_process true chmap [(streamBytes ps, ts)] st
      = tracestring_process_frame chmap st (streamBytes ps) ts := by
    rw [tracestring_process]
    simp
  rw [hsingle, heqL, heqR]

/-- Witness for claim C1's amended theorem: a two-packet stream (channel 0,
4-byte payloads) split so that the first packet straddles the frame
boundary. -/
theorem claim1_witness :
    tracestring_process true (fun _ => true)
        [([3, 65, 66, 67], 0), ([68, 3, 69, 70, 71, 72], 0)] ⟨[], 4, false, 0, 7, []⟩
      = tracestring_process true (fun _ => true)
          [(streamBytes [⟨3, [65, 66, 67, 68]⟩, ⟨3, [69, 70, 71, 72]⟩], 0)]
          ⟨[], 4, false, 0, 7, []⟩ :=
  claim1_carry_correctness_amended (fun _ => true) 0
    [⟨3, [65, 66, 67, 68]⟩, ⟨3, [69, 70, 71, 72]⟩]
    [[3, 65, 66, 67], [68, 3, 69, 70, 71, 72]] ⟨[], 4, false, 0, 7, []⟩
    (by decide) (by decide) (by decide) rfl rfl

end SWO
